import Mathlib

/-!
Verification of the Common repository's task-execution runtime core:
the bounded lock-free `RingQueue` (src/Containers/RingQueue.h), the
`LockFreeExecutor` task container, the thread/coroutine runtimes, the
default backoff policy, and the synchronous task adapters.

Modelling notes.  The queue's `_head` / `_tail` cursors and the per-slot
`sequence` counters are `size_t` values that the source only ever
increments; the spec describes them as "monotonically increasing 64-bit
counters (not wrapped)".  They are modelled as unbounded naturals.  The
`intptr_t` difference `seq - tail` computed by `TryPush` is modelled as
the exact integer difference.  Each public operation of the queue is one
atomic step of the sequential (linearized) semantics, so the
compare-and-swap on a cursor always finds the value that was read at the
start of the same call and therefore succeeds.
-/

/-- Result enumeration of `RingQueue` operations (RingQueue.h, `RingQueueResult`). -/
inductive RingQueueResult where
  | Ok
  | Full
  | Empty
  | Busy
  deriving DecidableEq, Repr

/-- One slot of the ring: payload plus its atomic sequence counter
(RingQueue.h, `struct Node`). -/
structure RQNode (α : Type) where
  data : α
  sequence : Nat
  deriving DecidableEq, Repr

/-- State of a `RingQueue<T>`: the two cursors and the slot array
(RingQueue.h, fields `_head`, `_tail`, `nodes_`). -/
structure RingQueue (α : Type) where
  head : Nat
  tail : Nat
  nodes : List (RQNode α)
  deriving DecidableEq, Repr

namespace RingQueue

/-- The constructor `RingQueue(capacity)`: every slot's sequence is
initialized to its own index, both cursors to zero; payloads are
default-constructed. -/
def init (α : Type) [Inhabited α] (capacity : Nat) : RingQueue α :=
  { head := 0
    tail := 0
    nodes := (List.range capacity).map fun i => ⟨default, i⟩ }

/-- `Capacity()`: the size of the slot array. -/
def Capacity (q : RingQueue α) : Nat := q.nodes.length

/-- `SizeApprox()`: `tail - head` (exact in the sequential semantics). -/
def SizeApprox (q : RingQueue α) : Nat := q.tail - q.head

/-- `TryPush(item)` as one atomic step of the sequential semantics.
Mirrors RingQueue.h lines 70-101: fast full-check `tail - head >= size`,
then the slot-sequence test `diff = (intptr_t)seq - (intptr_t)tail`;
on `diff == 0` the CAS on `_tail` (which succeeds, seeing the value just
read), the payload write and the release-store `sequence = tail + 1`.
Returns the result together with the successor state. -/
def TryPush [Inhabited α] (q : RingQueue α) (item : α) :
    RingQueueResult × RingQueue α :=
  let tail := q.tail
  let head := q.head
  if q.nodes.length ≤ tail - head then
    (.Full, q)
  else
    let index := tail % q.nodes.length
    let node := q.nodes.getD index ⟨default, 0⟩
    let diff : Int := (node.sequence : Int) - (tail : Int)
    if diff ≠ 0 then
      if diff < 0 then (.Full, q) else (.Busy, q)
    else
      (.Ok, { q with
                tail := tail + 1
                nodes := q.nodes.set index ⟨item, tail + 1⟩ })

/-- `TryPop(item&)` as one atomic step of the sequential semantics.
Mirrors RingQueue.h lines 121-154: the `head == tail` emptiness check,
the slot-sequence test `seq == head + 1` with its re-check of
`head == tail` on mismatch, and on success the CAS on `_head` (which
succeeds), the payload read and the re-arming store
`sequence = head + capacity`.  The third component is the value
assigned to the out-parameter (`none` when it is left unassigned). -/
def TryPop [Inhabited α] (q : RingQueue α) :
    RingQueueResult × RingQueue α × Option α :=
  let head := q.head
  let tail := q.tail
  if head = tail then
    (.Empty, q, none)
  else
    let index := head % q.nodes.length
    let node := q.nodes.getD index ⟨default, 0⟩
    if node.sequence ≠ head + 1 then
      if q.head = q.tail then (.Empty, q, none) else (.Busy, q, none)
    else
      (.Ok,
       { q with
           head := head + 1
           nodes := q.nodes.set index ⟨node.data, head + q.nodes.length⟩ },
       some node.data)

/-- `IsEmptyApprox()`: `head == tail`. -/
def IsEmptyApprox (q : RingQueue α) : Bool := q.head == q.tail

/-- `IsFullApprox()`: `tail - head >= capacity`. -/
def IsFullApprox (q : RingQueue α) : Bool := q.nodes.length ≤ q.tail - q.head

/-- Abstraction function: the logical FIFO contents of the queue, read
from slot `(head + j) mod capacity` for each offset `j < tail - head`. -/
def toList [Inhabited α] (q : RingQueue α) : List α :=
  (List.range (q.tail - q.head)).map fun j =>
    (q.nodes.getD ((q.head + j) % q.nodes.length) ⟨default, 0⟩).data

/-- State invariant of the sequential semantics.  The cursors satisfy
`head ≤ tail ≤ head + capacity`; a slot holding the value produced for
position `head + j` (an offset `j < tail - head`) carries sequence
`head + j + 1`, while a free slot at offset `j ∈ [tail - head, capacity)`
carries sequence `head + j`, the position of the producer that will fill
it next. -/
def Inv [Inhabited α] (q : RingQueue α) : Prop :=
  q.head ≤ q.tail ∧
  q.tail ≤ q.head + q.nodes.length ∧
  (∀ j, j < q.tail - q.head →
    (q.nodes.getD ((q.head + j) % q.nodes.length) ⟨default, 0⟩).sequence
      = q.head + j + 1) ∧
  (∀ j, q.tail - q.head ≤ j → j < q.nodes.length →
    (q.nodes.getD ((q.head + j) % q.nodes.length) ⟨default, 0⟩).sequence
      = q.head + j)

/-- The successor state of a successful `TryPush` (characterization
helper equal, by `push_ok` below, to what `TryPush` returns in a
non-full invariant state). -/
def pushState [Inhabited α] (q : RingQueue α) (x : α) : RingQueue α :=
  { head := q.head
    tail := q.tail + 1
    nodes := q.nodes.set (q.tail % q.nodes.length) ⟨x, q.tail + 1⟩ }

/-- The value a successful `TryPop` assigns to its out-parameter. -/
def popVal [Inhabited α] (q : RingQueue α) : α :=
  (q.nodes.getD (q.head % q.nodes.length) ⟨default, 0⟩).data

/-- The successor state of a successful `TryPop` (characterization
helper equal, by `pop_ok` below, to what `TryPop` returns in a
non-empty invariant state). -/
def popState [Inhabited α] (q : RingQueue α) : RingQueue α :=
  { head := q.head + 1
    tail := q.tail
    nodes := q.nodes.set (q.head % q.nodes.length)
      ⟨(q.nodes.getD (q.head % q.nodes.length) ⟨default, 0⟩).data,
       q.head + q.nodes.length⟩ }

end RingQueue

/-- One call in a client history against a `RingQueue`: a `TryPush` of a
given value, or a `TryPop`. -/
inductive RQOp (α : Type) where
  | push (v : α)
  | pop
  deriving DecidableEq, Repr

/-- Run a history of `TryPush`/`TryPop` calls.  Returns the final queue
state, the values whose `TryPush` returned `Ok` (in call order), and the
values delivered by a `TryPop` that returned `Ok` (in call order). -/
def runOps [Inhabited α] (q : RingQueue α) :
    List (RQOp α) → RingQueue α × List α × List α
  | [] => (q, [], [])
  | RQOp.push v :: rest =>
    let r := q.TryPush v
    let k := runOps r.2 rest
    (k.1, (if r.1 = RingQueueResult.Ok then [v] else []) ++ k.2.1, k.2.2)
  | RQOp.pop :: rest =>
    let r := q.TryPop
    let k := runOps r.2.1 rest
    (k.1, k.2.1, (match r.2.2 with | some v => [v] | none => []) ++ k.2.2)

/-- Push the given values one after the other; returns the final state
and the list of results in call order. -/
def pushSeq [Inhabited α] (q : RingQueue α) :
    List α → RingQueue α × List RingQueueResult
  | [] => (q, [])
  | v :: vs =>
    let r := q.TryPush v
    let k := pushSeq r.2 vs
    (k.1, r.1 :: k.2)

/-- Pop `n` times in a row; returns the final state and the list of
out-parameter assignments in call order. -/
def popSeq [Inhabited α] (q : RingQueue α) :
    Nat → RingQueue α × List (Option α)
  | 0 => (q, [])
  | n + 1 =>
    let r := q.TryPop
    let k := popSeq r.2.1 n
    (k.1, r.2.2 :: k.2)

/-- `LockFreeExecutor<Task>` (src/Executor/LockFreeExecutor.h): the task
container, owning one `RingQueue`. -/
structure LockFreeExecutor (τ : Type) where
  queue : RingQueue τ
  deriving DecidableEq, Repr

namespace LockFreeExecutor

/-- `Add(task)`: `return _queue.TryPush(task) == RingQueueResult::Ok;`
(LockFreeExecutor.h lines 82-84).  Returns the boolean together with the
container's successor state. -/
def Add [Inhabited τ] (e : LockFreeExecutor τ) (task : τ) :
    Bool × LockFreeExecutor τ :=
  let r := e.queue.TryPush task
  (decide (r.1 = RingQueueResult.Ok), ⟨r.2⟩)

/-- `TryPop(out)`: `return _queue.TryPop(out) == RingQueueResult::Ok;`. -/
def TryPop [Inhabited τ] (e : LockFreeExecutor τ) :
    Bool × LockFreeExecutor τ × Option τ :=
  let r := e.queue.TryPop
  (decide (r.1 = RingQueueResult.Ok), ⟨r.2.1⟩, r.2.2)

/-- `SizeApprox()`: forwards to the queue. -/
def SizeApprox (e : LockFreeExecutor τ) : Nat := e.queue.SizeApprox

end LockFreeExecutor

/-- `ThreadExecutor<Task>` (src/Executor/ThreadExecutor.h): the
preemptive thread-pool runtime.  Modelled state: the referenced task
container and the `_running` flag (threads, condition variable and mutex
carry no sequentially observable state). -/
structure ThreadExecutor (τ : Type) where
  executor : LockFreeExecutor τ
  running : Bool
  deriving DecidableEq, Repr

namespace ThreadExecutor

/-- `Start()`: sets `_running` to true (and spawns the worker threads). -/
def Start (te : ThreadExecutor τ) : ThreadExecutor τ := { te with running := true }

/-- `Stop()`: sets `_running` to false, wakes and joins the workers. -/
def StopRt (te : ThreadExecutor τ) : ThreadExecutor τ := { te with running := false }

/-- `Submit(task)` (ThreadExecutor.h lines 163-169): forwards
unconditionally to `_executor.Add(task)`; on success it additionally
calls `_cv.notify_one()` (no modelled state).  The `_running` flag is
not consulted. -/
def Submit [Inhabited τ] (te : ThreadExecutor τ) (task : τ) :
    Bool × ThreadExecutor τ :=
  let r := te.executor.Add task
  (r.1, { te with executor := r.2 })

end ThreadExecutor

/-- `CoroutineExecutor<Task>` (src/Executor/CoroutineExecutor.h): the
cooperative single-thread runtime.  Modelled state: the referenced task
container and the `_running` flag. -/
structure CoroutineExecutor (τ : Type) where
  executor : LockFreeExecutor τ
  running : Bool
  deriving DecidableEq, Repr

namespace CoroutineExecutor

/-- `Submit(task)` (CoroutineExecutor.h lines 137-139): forwards
unconditionally to `_executor.Add(task)`; the `_running` flag is not
consulted. -/
def Submit [Inhabited τ] (ce : CoroutineExecutor τ) (task : τ) :
    Bool × CoroutineExecutor τ :=
  let r := ce.executor.Add task
  (r.1, { ce with executor := r.2 })

end CoroutineExecutor

/-- The observable action a backoff invocation performs. -/
inductive BackoffAction where
  | spin
  | yield
  | sleepMicros (us : Nat)
  deriving DecidableEq, Repr

/-- `DefaultBackoffPolicy::operator()(missCount)`
(CoroutineExecutorMT.h lines 20-32): brief spin below 50 misses,
`std::this_thread::yield()` below 200, otherwise
`sleep_for(microseconds(50))`. -/
def DefaultBackoffPolicy (missCount : Nat) : BackoffAction :=
  if missCount < 50 then BackoffAction.spin
  else if missCount < 200 then BackoffAction.yield
  else BackoffAction.sleepMicros 50

/-- One resume of a `CoroutineExecutorMT::CoroutineLoop` coroutine while
`_running` is true (CoroutineExecutorMT.h lines 150-160): from its
suspension point the coroutine repeatedly performs `TryPop`, invoking
the callback on `Ok`, until a pop fails, then suspends again via
`co_await std::suspend_always{}`.  `fuel` bounds the number of pops (any
value above the queue's current size is exact); returns the new queue
state and the number of tasks dequeued and executed during the resume. -/
def coroutineResume [Inhabited τ] : Nat → RingQueue τ → RingQueue τ × Nat
  | 0, q => (q, 0)
  | fuel + 1, q =>
    let r := q.TryPop
    if r.1 = RingQueueResult.Ok then
      let k := coroutineResume fuel r.2.1
      (k.1, k.2 + 1)
    else
      (q, 0)

/-- One full scheduling round of `CoroutineExecutorMT::ThreadMain`
(CoroutineExecutorMT.h lines 170-203) while `_running` is true: the
thread resumes each of its `liveHandles` coroutines whose handle is
non-null and not done, and — exactly as the source does — sets its local
`progressed` flag to true after every such resume, whether or not the
coroutine dequeued anything.  Afterwards, if `progressed` is false the
thread increments the miss count and invokes the backoff policy with it;
otherwise it resets the miss count to zero.  Returns the new queue
state, the new miss count, the number of tasks dequeued during the
round, and whether the backoff policy was invoked. -/
def threadMainRound [Inhabited τ] (q : RingQueue τ)
    (liveHandles missCount : Nat) : RingQueue τ × Nat × Nat × Bool :=
  let round :=
    (List.range liveHandles).foldl
      (fun (acc : RingQueue τ × Nat × Bool) _ =>
        let r := coroutineResume (acc.1.SizeApprox + 1) acc.1
        (r.1, acc.2.1 + r.2, true))
      (q, 0, false)
  if round.2.2 then (round.1, 0, round.2.1, false)
  else (round.1, missCount + 1, round.2.1, true)

/-- `BlockingTask` (src/Executor/BlockingTask.h): wraps a `void()`
computation; the wrapped call has no modelled return value, so the model
tracks how often it has been executed.  `done` is the `_done` flag set
under `_mutex` after the computation runs. -/
structure BlockingTask where
  done : Bool
  execCount : Nat
  deriving DecidableEq, Repr

namespace BlockingTask

/-- The freshly constructed adapter: `_done` false, computation not run. -/
def mkTask : BlockingTask := ⟨false, 0⟩

/-- `operator()`: run `_fn()`, then set `_done` under the lock and
notify the waiter. -/
def run (t : BlockingTask) : BlockingTask := ⟨true, t.execCount + 1⟩

/-- `Wait()` can return precisely when the predicate `_done` it waits on
is true. -/
def WaitReturns (t : BlockingTask) : Bool := t.done

end BlockingTask

/-- `ResultTask<R>` (src/Executor/ResultTask.h): wraps an `R()`
computation `fn`; `result` is `_result` (default-constructed until
assigned), `done` the `_done` flag. -/
structure ResultTask (R : Type) where
  fn : Unit → R
  result : R
  done : Bool
  execCount : Nat

namespace ResultTask

/-- The freshly constructed adapter around `fn`. -/
def mkTask (R : Type) [Inhabited R] (fn : Unit → R) : ResultTask R :=
  ⟨fn, default, false, 0⟩

/-- `operator()`: run `R r = _fn()`, then under the lock store `_result`
and set `_done`, then notify the waiter. -/
def run (t : ResultTask R) : ResultTask R :=
  { t with result := t.fn (), done := true, execCount := t.execCount + 1 }

/-- `Get()` blocks until `_done` and then returns `_result`: the value
it can return, `none` while it must still block. -/
def GetReturns (t : ResultTask R) : Option R :=
  if t.done then some t.result else none

end ResultTask

/-! ### List and modular-arithmetic helper lemmas -/

theorem getD_set_self {β : Type} (l : List β) (i : Nat) (v d : β)
    (h : i < l.length) : (l.set i v).getD i d = v := by
  simp [List.getD_eq_getElem?_getD, List.getElem?_set_eq_of_lt v h]

theorem getD_set_ne {β : Type} (l : List β) (i k : Nat) (v d : β)
    (h : i ≠ k) : (l.set i v).getD k d = l.getD k d := by
  simp [List.getD_eq_getElem?_getD, List.getElem?_set_ne h]

theorem getD_range_map {β : Type} (f : Nat → β) (n i : Nat) (d : β)
    (h : i < n) :
    (((List.range n).map f).getD i d) = f i := by
  simp [List.getD_eq_getElem?_getD, List.getElem?_map, List.getElem?_range h]

theorem mod_split (r j C : Nat) (hr : r < C) (hj : j < C) :
    (r + j) % C = r + j ∨ (C ≤ r + j ∧ (r + j) % C = r + j - C) := by
  by_cases hc : r + j < C
  · exact Or.inl (Nat.mod_eq_of_lt hc)
  · refine Or.inr ⟨by omega, ?_⟩
    rw [Nat.mod_eq_sub_mod (by omega)]
    exact Nat.mod_eq_of_lt (by omega)

theorem add_mod_inj (h C j₁ j₂ : Nat) (h1 : j₁ < C) (h2 : j₂ < C)
    (he : (h + j₁) % C = (h + j₂) % C) : j₁ = j₂ := by
  have hC : 0 < C := by omega
  have hr : h % C < C := Nat.mod_lt h hC
  have f1 : (h + j₁) % C = (h % C + j₁) % C := by
    rw [Nat.add_mod, Nat.mod_eq_of_lt h1]
  have f2 : (h + j₂) % C = (h % C + j₂) % C := by
    rw [Nat.add_mod, Nat.mod_eq_of_lt h2]
  rw [f1, f2] at he
  rcases mod_split (h % C) j₁ C hr h1 with e1 | e1 <;>
    rcases mod_split (h % C) j₂ C hr h2 with e2 | e2 <;> omega

theorem mod_ne_of_offset_ne (h C j₁ j₂ : Nat) (h1 : j₁ < C) (h2 : j₂ < C)
    (hne : j₁ ≠ j₂) : (h + j₁) % C ≠ (h + j₂) % C :=
  fun he => hne (add_mod_inj h C j₁ j₂ h1 h2 he)

namespace RingQueue

/-! ### Characterization of the queue operations on invariant states -/

theorem inv_init (α : Type) [Inhabited α] (C : Nat) : (init α C).Inv := by
  refine ⟨Nat.le_refl 0, Nat.zero_le _, ?_, ?_⟩
  · intro j hj
    simp [init] at hj
  · intro j _ hj2
    simp only [init, List.length_map, List.length_range] at hj2 ⊢
    rw [Nat.zero_add, Nat.mod_eq_of_lt hj2, getD_range_map _ _ _ _ hj2]

theorem toList_init (α : Type) [Inhabited α] (C : Nat) :
    (init α C).toList = [] := by
  simp [toList, init]

theorem toList_of_empty [Inhabited α] (q : RingQueue α) (h : q.head = q.tail) :
    q.toList = [] := by
  simp [toList, h]

theorem push_full [Inhabited α] (q : RingQueue α) (x : α)
    (h : q.nodes.length ≤ q.tail - q.head) :
    q.TryPush x = (.Full, q) := by
  simp [TryPush, h]

theorem pop_empty [Inhabited α] (q : RingQueue α) (h : q.head = q.tail) :
    q.TryPop = (.Empty, q, none) := by
  simp [TryPop, h]

theorem push_ok [Inhabited α] (q : RingQueue α) (x : α) (hinv : q.Inv)
    (hlt : q.tail < q.head + q.nodes.length) :
    q.TryPush x = (.Ok, q.pushState x) := by
  obtain ⟨h1, _, _, hempty⟩ := hinv
  have hguard : ¬ (q.nodes.length ≤ q.tail - q.head) := by omega
  have hj : q.tail - q.head < q.nodes.length := by omega
  have hseq := hempty (q.tail - q.head) (Nat.le_refl _) hj
  have hidx : q.head + (q.tail - q.head) = q.tail := by omega
  rw [hidx] at hseq
  simp only [TryPush]
  rw [if_neg hguard, hseq]
  simp [pushState]

theorem pop_ok [Inhabited α] (q : RingQueue α) (hinv : q.Inv)
    (hne : q.head < q.tail) :
    q.TryPop = (.Ok, q.popState, some q.popVal) := by
  obtain ⟨_, _, hfull, _⟩ := hinv
  have hne' : q.head ≠ q.tail := by omega
  have hseq := hfull 0 (by omega)
  rw [Nat.add_zero] at hseq
  simp only [TryPop]
  rw [if_neg hne', hseq]
  simp [popState, popVal]

theorem push_inv [Inhabited α] (q : RingQueue α) (x : α) (hinv : q.Inv)
    (hlt : q.tail < q.head + q.nodes.length) : (q.pushState x).Inv := by
  obtain ⟨h1, h2, hfull, hempty⟩ := hinv
  have hC : 0 < q.nodes.length := by omega
  have hm : q.tail - q.head < q.nodes.length := by omega
  have hidx : q.head + (q.tail - q.head) = q.tail := by omega
  refine ⟨?_, ?_, ?_, ?_⟩
  · simp only [pushState]
    omega
  · simp only [pushState, List.length_set]
    omega
  · intro j hj
    simp only [pushState, List.length_set] at hj ⊢
    by_cases hcase : j = q.tail - q.head
    · subst hcase
      rw [hidx, getD_set_self _ _ _ _ (Nat.mod_lt _ hC)]
    · have hjC : j < q.nodes.length := by omega
      have hne : q.tail % q.nodes.length ≠ (q.head + j) % q.nodes.length := by
        rw [← hidx]
        exact mod_ne_of_offset_ne _ _ _ _ hm hjC (fun he => hcase he.symm)
      rw [getD_set_ne _ _ _ _ _ hne]
      exact hfull j (by omega)
  · intro j hj1 hj2
    simp only [pushState, List.length_set] at hj1 hj2 ⊢
    have hne : q.tail % q.nodes.length ≠ (q.head + j) % q.nodes.length := by
      rw [← hidx]
      exact mod_ne_of_offset_ne _ _ _ _ hm hj2 (by omega)
    rw [getD_set_ne _ _ _ _ _ hne]
    exact hempty j (by omega) hj2

theorem pop_inv [Inhabited α] (q : RingQueue α) (hinv : q.Inv)
    (hne : q.head < q.tail) : q.popState.Inv := by
  obtain ⟨h1, h2, hfull, hempty⟩ := hinv
  have hC : 0 < q.nodes.length := by omega
  refine ⟨?_, ?_, ?_, ?_⟩
  · simp only [popState]
    omega
  · simp only [popState, List.length_set]
    omega
  · intro j hj
    simp only [popState, List.length_set] at hj ⊢
    have hjC : j + 1 < q.nodes.length := by omega
    have e : q.head + 1 + j = q.head + (j + 1) := by omega
    rw [e]
    have hne' : q.head % q.nodes.length ≠ (q.head + (j + 1)) % q.nodes.length := by
      have h0 : q.head % q.nodes.length = (q.head + 0) % q.nodes.length := by
        rw [Nat.add_zero]
      rw [h0]
      exact mod_ne_of_offset_ne _ _ _ _ hC hjC (by omega)
    rw [getD_set_ne _ _ _ _ _ hne']
    exact hfull (j + 1) (by omega)
  · intro j hj1 hj2
    simp only [popState, List.length_set] at hj1 hj2 ⊢
    by_cases hlast : j + 1 = q.nodes.length
    · have e : q.head + 1 + j = q.head + q.nodes.length := by omega
      rw [e, Nat.add_mod_right, getD_set_self _ _ _ _ (Nat.mod_lt _ hC)]
    · have hjC : j + 1 < q.nodes.length := by omega
      have e : q.head + 1 + j = q.head + (j + 1) := by omega
      rw [e]
      have hne' : q.head % q.nodes.length ≠ (q.head + (j + 1)) % q.nodes.length := by
        have h0 : q.head % q.nodes.length = (q.head + 0) % q.nodes.length := by
          rw [Nat.add_zero]
        rw [h0]
        exact mod_ne_of_offset_ne _ _ _ _ hC hjC (by omega)
      rw [getD_set_ne _ _ _ _ _ hne']
      exact hempty (j + 1) (by omega) hjC

end RingQueue

namespace RingQueue

theorem push_toList [Inhabited α] (q : RingQueue α) (x : α) (hinv : q.Inv)
    (hlt : q.tail < q.head + q.nodes.length) :
    (q.pushState x).toList = q.toList ++ [x] := by
  obtain ⟨h1, _, _, _⟩ := hinv
  have hC : 0 < q.nodes.length := by omega
  have hm : q.tail - q.head < q.nodes.length := by omega
  have hidx : q.head + (q.tail - q.head) = q.tail := by omega
  simp only [toList, pushState, List.length_set]
  have hrange : q.tail + 1 - q.head = (q.tail - q.head) + 1 := by omega
  rw [hrange, List.range_succ, List.map_append]
  congr 1
  · apply List.map_congr_left
    intro j hjmem
    have hj : j < q.tail - q.head := List.mem_range.mp hjmem
    have hjC : j < q.nodes.length := by omega
    have hne : q.tail % q.nodes.length ≠ (q.head + j) % q.nodes.length := by
      rw [← hidx]
      exact mod_ne_of_offset_ne _ _ _ _ hm hjC (by omega)
    rw [getD_set_ne _ _ _ _ _ hne]
  · rw [List.map_cons, List.map_nil, hidx,
      getD_set_self _ _ _ _ (Nat.mod_lt _ hC)]

theorem pop_toList [Inhabited α] (q : RingQueue α) (hinv : q.Inv)
    (hne : q.head < q.tail) :
    q.toList = q.popVal :: q.popState.toList := by
  obtain ⟨_, h2, _, _⟩ := hinv
  have hC : 0 < q.nodes.length := by omega
  simp only [toList, popState, popVal, List.length_set]
  have hrange : q.tail - q.head = (q.tail - (q.head + 1)) + 1 := by omega
  rw [hrange, List.range_succ_eq_map, List.map_cons, List.map_map]
  congr 1
  apply List.map_congr_left
  intro j hjmem
  have hj : j < q.tail - (q.head + 1) := List.mem_range.mp hjmem
  have hjC : j + 1 < q.nodes.length := by omega
  have e : q.head + 1 + j = q.head + (j + 1) := by omega
  have hne' : q.head % q.nodes.length ≠ (q.head + (j + 1)) % q.nodes.length := by
    have h0 : q.head % q.nodes.length = (q.head + 0) % q.nodes.length := by
      rw [Nat.add_zero]
    rw [h0]
    exact mod_ne_of_offset_ne _ _ _ _ hC hjC (by omega)
  simp only [Function.comp_apply]
  rw [e, getD_set_ne _ _ _ _ _ hne']

end RingQueue

open RingQueue in
theorem pushSeq_ok [Inhabited α] (vs : List α) (q : RingQueue α) (hinv : q.Inv)
    (hcap : q.tail - q.head + vs.length ≤ q.nodes.length) :
    (pushSeq q vs).2 = List.replicate vs.length RingQueueResult.Ok ∧
    (pushSeq q vs).1.Inv ∧
    (pushSeq q vs).1.head = q.head ∧
    (pushSeq q vs).1.tail = q.tail + vs.length ∧
    (pushSeq q vs).1.nodes.length = q.nodes.length ∧
    (pushSeq q vs).1.toList = q.toList ++ vs := by
  induction vs generalizing q with
  | nil => simp [pushSeq, hinv]
  | cons v vs ih =>
    have h1 := hinv.1
    have hlt : q.tail < q.head + q.nodes.length := by
      simp only [List.length_cons] at hcap
      omega
    have hpush := push_ok q v hinv hlt
    have hinv' := push_inv q v hinv hlt
    have htl := push_toList q v hinv hlt
    have hcap' : (q.pushState v).tail - (q.pushState v).head + vs.length
        ≤ (q.pushState v).nodes.length := by
      simp only [pushState, List.length_set, List.length_cons] at hcap ⊢
      omega
    obtain ⟨i1, i2, i3, i4, i5, i6⟩ := ih (q.pushState v) hinv' hcap'
    simp only [pushSeq, hpush, List.length_cons, List.replicate_succ]
    refine ⟨?_, i2, ?_, ?_, ?_, ?_⟩
    · rw [i1]
    · rw [i3]
      rfl
    · rw [i4]
      simp only [pushState]
      omega
    · rw [i5]
      simp [pushState]
    · rw [i6, htl]
      simp

open RingQueue in
theorem popSeq_ok [Inhabited α] (n : Nat) (q : RingQueue α) (hinv : q.Inv)
    (hn : n ≤ q.tail - q.head) :
    (popSeq q n).2 = (q.toList.take n).map some ∧
    (popSeq q n).1.Inv ∧
    (popSeq q n).1.head = q.head + n ∧
    (popSeq q n).1.tail = q.tail ∧
    (popSeq q n).1.toList = q.toList.drop n := by
  induction n generalizing q with
  | zero => simp [popSeq, hinv]
  | succ n ih =>
    have hne : q.head < q.tail := by
      have := hinv.1
      omega
    have hpop := pop_ok q hinv hne
    have hinv' := pop_inv q hinv hne
    have htl := pop_toList q hinv hne
    have hn' : n ≤ q.popState.tail - q.popState.head := by
      simp only [popState]
      omega
    obtain ⟨i1, i2, i3, i4, i5⟩ := ih q.popState hinv' hn'
    simp only [popSeq, hpop]
    refine ⟨?_, i2, ?_, ?_, ?_⟩
    · rw [i1, htl]
      simp
    · rw [i3]
      simp only [popState]
      omega
    · rw [i4]
      rfl
    · rw [i5, htl]
      simp

open RingQueue in
theorem runOps_spec [Inhabited α] (ops : List (RQOp α)) (q : RingQueue α)
    (hinv : q.Inv) :
    (runOps q ops).1.Inv ∧
    q.toList ++ (runOps q ops).2.1 = (runOps q ops).2.2 ++ (runOps q ops).1.toList := by
  induction ops generalizing q with
  | nil => simp [runOps, hinv]
  | cons op rest ih =>
    cases op with
    | push v =>
      rcases Nat.lt_or_ge q.tail (q.head + q.nodes.length) with hlt | hge
      · have hp := push_ok q v hinv hlt
        have hinv' := push_inv q v hinv hlt
        have htl := push_toList q v hinv hlt
        obtain ⟨j1, j2⟩ := ih (q.pushState v) hinv'
        refine ⟨by simpa [runOps, hp] using j1, ?_⟩
        have j2' := j2
        rw [htl] at j2'
        simp only [List.append_assoc, List.singleton_append] at j2'
        simpa [runOps, hp] using j2'
      · have hfull : q.nodes.length ≤ q.tail - q.head := by
          have := hinv.1
          omega
        have hp := push_full q v hfull
        obtain ⟨j1, j2⟩ := ih q hinv
        exact ⟨by simpa [runOps, hp] using j1, by simpa [runOps, hp] using j2⟩
    | pop =>
      by_cases hempt : q.head = q.tail
      · have hp := pop_empty q hempt
        obtain ⟨j1, j2⟩ := ih q hinv
        exact ⟨by simpa [runOps, hp] using j1, by simpa [runOps, hp] using j2⟩
      · have hne : q.head < q.tail := by
          have := hinv.1
          omega
        have hp := pop_ok q hinv hne
        have hinv' := pop_inv q hinv hne
        have htl := pop_toList q hinv hne
        obtain ⟨j1, j2⟩ := ih q.popState hinv'
        refine ⟨by simpa [runOps, hp] using j1, ?_⟩
        simp only [runOps, hp]
        rw [htl]
        simp only [List.cons_append, List.singleton_append]
        rw [j2]
        simp

/-! ### Claim theorems -/

/-- State used to refute claim C3 as stated: a capacity-1 queue holding
one unconsumed item (obtained by pushing 7 into a fresh queue). -/
def c3State : RingQueue Nat := ((RingQueue.init Nat 1).TryPush 7).2

/-- C3 (counterexample): in the state `c3State` the slot difference
`sequence - tail` is zero, yet `TryPush` returns `Full` (the fast
full-check `tail - head >= capacity` fires first), not `Ok` as the claim
requires at every queue state. -/
theorem tryPush_protocol_counterexample :
    ((c3State.nodes.getD (c3State.tail % c3State.nodes.length)
        ⟨0, 0⟩).sequence : Int) - (c3State.tail : Int) = 0 ∧
    (c3State.TryPush 8).1 = RingQueueResult.Full ∧
    (c3State.TryPush 8).1 ≠ RingQueueResult.Ok := by
  decide

/-- C3 (amended): in any state with `head ≤ tail` in which the fast
full-check passes (`tail - head < capacity`), `TryPush` follows the
slot-ownership protocol: `diff = 0` gives a successful CAS of `tail` to
`tail+1`, the payload write and `sequence = tail+1` with result `Ok`;
`diff < 0` gives `Full`; `diff > 0` gives `Busy`.  (When the fast check
fires, `TryPush` returns `Full` regardless of `diff`, as
`tryPush_protocol_counterexample` shows; a CAS failure, the other `Busy`
source, cannot occur in the sequential semantics.) -/
theorem tryPush_protocol_guarded {α : Type} [Inhabited α]
    (q : RingQueue α) (x : α) (_hwf : q.head ≤ q.tail)
    (hfast : q.tail - q.head < q.nodes.length) :
    (((q.nodes.getD (q.tail % q.nodes.length) ⟨default, 0⟩).sequence : Int)
        - (q.tail : Int) = 0 →
      q.TryPush x = (RingQueueResult.Ok,
        { head := q.head, tail := q.tail + 1,
          nodes := q.nodes.set (q.tail % q.nodes.length) ⟨x, q.tail + 1⟩ })) ∧
    (((q.nodes.getD (q.tail % q.nodes.length) ⟨default, 0⟩).sequence : Int)
        - (q.tail : Int) < 0 →
      q.TryPush x = (RingQueueResult.Full, q)) ∧
    (0 < ((q.nodes.getD (q.tail % q.nodes.length) ⟨default, 0⟩).sequence : Int)
        - (q.tail : Int) →
      q.TryPush x = (RingQueueResult.Busy, q)) := by
  have hguard : ¬ (q.nodes.length ≤ q.tail - q.head) := by omega
  refine ⟨?_, ?_, ?_⟩ <;> intro hdiff
  · have hseq : (q.nodes.getD (q.tail % q.nodes.length) ⟨default, 0⟩).sequence
        = q.tail := by
      have := sub_eq_zero.mp hdiff
      exact_mod_cast this
    simp only [RingQueue.TryPush]
    rw [if_neg hguard, hseq]
    simp
  · have hne0 : ((q.nodes.getD (q.tail % q.nodes.length) ⟨default, 0⟩).sequence : Int)
        - (q.tail : Int) ≠ 0 := by omega
    simp only [RingQueue.TryPush]
    rw [if_neg hguard, if_pos hne0, if_pos hdiff]
  · have hne0 : ((q.nodes.getD (q.tail % q.nodes.length) ⟨default, 0⟩).sequence : Int)
        - (q.tail : Int) ≠ 0 := by omega
    have hnlt : ¬ (((q.nodes.getD (q.tail % q.nodes.length) ⟨default, 0⟩).sequence : Int)
        - (q.tail : Int) < 0) := by omega
    simp only [RingQueue.TryPush]
    rw [if_neg hguard, if_pos hne0, if_neg hnlt]

/-- Witness for `tryPush_protocol_guarded` at the fresh capacity-2 queue
(`diff = 0` case). -/
theorem tryPush_protocol_guarded_witness :
    (RingQueue.init Nat 2).head ≤ (RingQueue.init Nat 2).tail ∧
    (RingQueue.init Nat 2).tail - (RingQueue.init Nat 2).head
      < (RingQueue.init Nat 2).nodes.length ∧
    (((RingQueue.init Nat 2).nodes.getD
        ((RingQueue.init Nat 2).tail % (RingQueue.init Nat 2).nodes.length)
        ⟨default, 0⟩).sequence : Int) - ((RingQueue.init Nat 2).tail : Int) = 0 ∧
    (RingQueue.init Nat 2).TryPush 7
      = (RingQueueResult.Ok,
         { head := (RingQueue.init Nat 2).head,
           tail := (RingQueue.init Nat 2).tail + 1,
           nodes := (RingQueue.init Nat 2).nodes.set
             ((RingQueue.init Nat 2).tail % (RingQueue.init Nat 2).nodes.length)
             ⟨7, (RingQueue.init Nat 2).tail + 1⟩ }) :=
  ⟨by decide, by decide, by decide,
   (tryPush_protocol_guarded (RingQueue.init Nat 2) 7 (by decide) (by decide)).1
     (by decide)⟩

/-- C4: `TryPop` follows the stated protocol: `head = tail` gives
`Empty` (in particular on a freshly constructed queue); a slot sequence
different from `head + 1` gives `Busy` after the `head == tail` re-check
(which cannot see equal cursors here, the cursors being unchanged since
the first check); a slot sequence equal to `head + 1` gives a successful
CAS of `head` to `head+1`, the payload read into the out-parameter, and
the re-arming store `sequence = head + capacity`, with result `Ok`. -/
theorem tryPop_protocol {α : Type} [Inhabited α] (q : RingQueue α) (C : Nat) :
    (q.head = q.tail → q.TryPop = (RingQueueResult.Empty, q, none)) ∧
    (q.head ≠ q.tail →
      (q.nodes.getD (q.head % q.nodes.length) ⟨default, 0⟩).sequence ≠ q.head + 1 →
      q.TryPop = (RingQueueResult.Busy, q, none)) ∧
    (q.head ≠ q.tail →
      (q.nodes.getD (q.head % q.nodes.length) ⟨default, 0⟩).sequence = q.head + 1 →
      q.TryPop = (RingQueueResult.Ok,
        { head := q.head + 1, tail := q.tail,
          nodes := q.nodes.set (q.head % q.nodes.length)
            ⟨(q.nodes.getD (q.head % q.nodes.length) ⟨default, 0⟩).data,
             q.head + q.nodes.length⟩ },
        some (q.nodes.getD (q.head % q.nodes.length) ⟨default, 0⟩).data)) ∧
    (RingQueue.init α C).TryPop = (RingQueueResult.Empty, RingQueue.init α C, none) := by
  refine ⟨?_, ?_, ?_, ?_⟩
  · intro h
    exact RingQueue.pop_empty q h
  · intro h hseq
    simp only [RingQueue.TryPop]
    rw [if_neg h, if_pos hseq, if_neg h]
  · intro h hseq
    simp only [RingQueue.TryPop]
    rw [if_neg h, hseq]
    simp
  · exact RingQueue.pop_empty _ rfl

/-- State used to witness C4's `Ok` case: a capacity-2 queue holding the
value 5. -/
def c4State : RingQueue Nat := ((RingQueue.init Nat 2).TryPush 5).2

/-- Witness for `tryPop_protocol` at `c4State` (the `Ok` case). -/
theorem tryPop_protocol_witness :
    c4State.head ≠ c4State.tail ∧
    (c4State.nodes.getD (c4State.head % c4State.nodes.length)
      ⟨default, 0⟩).sequence = c4State.head + 1 ∧
    c4State.TryPop = (RingQueueResult.Ok,
      { head := c4State.head + 1, tail := c4State.tail,
        nodes := c4State.nodes.set (c4State.head % c4State.nodes.length)
          ⟨(c4State.nodes.getD (c4State.head % c4State.nodes.length)
              ⟨default, 0⟩).data,
           c4State.head + c4State.nodes.length⟩ },
      some (c4State.nodes.getD (c4State.head % c4State.nodes.length)
        ⟨default, 0⟩).data) :=
  ⟨by decide, by decide,
   (tryPop_protocol c4State 0).2.2.1 (by decide) (by decide)⟩

/-- C10: whenever `TryPush` returns `Full` or `Busy` the whole queue
state is returned unchanged, and whenever `TryPop` returns `Empty` or
`Busy` the queue state is unchanged and the out-parameter is not
assigned. -/
theorem tryPush_tryPop_atomic_on_failure {α : Type} [Inhabited α]
    (q : RingQueue α) (x : α) :
    (((q.TryPush x).1 = RingQueueResult.Full ∨
        (q.TryPush x).1 = RingQueueResult.Busy) →
      (q.TryPush x).2 = q) ∧
    ((q.TryPop.1 = RingQueueResult.Empty ∨
        q.TryPop.1 = RingQueueResult.Busy) →
      q.TryPop.2.1 = q ∧ q.TryPop.2.2 = none) := by
  constructor
  · intro h
    simp only [RingQueue.TryPush] at h ⊢
    split_ifs at h ⊢ <;> simp_all
  · intro h
    simp only [RingQueue.TryPop] at h ⊢
    split_ifs at h ⊢ <;> simp_all

/-- State used to witness C10's push half: a full capacity-1 queue. -/
def c10State : RingQueue Nat := ((RingQueue.init Nat 1).TryPush 3).2

/-- Witness for `tryPush_tryPop_atomic_on_failure`: a `Full` push on a
full capacity-1 queue and an `Empty` pop on a fresh queue, both leaving
the state unchanged. -/
theorem tryPush_tryPop_atomic_on_failure_witness :
    (c10State.TryPush 9).1 = RingQueueResult.Full ∧
    (c10State.TryPush 9).2 = c10State ∧
    (RingQueue.init Nat 1).TryPop.1 = RingQueueResult.Empty ∧
    (RingQueue.init Nat 1).TryPop.2.1 = RingQueue.init Nat 1 ∧
    (RingQueue.init Nat 1).TryPop.2.2 = none :=
  ⟨by decide,
   (tryPush_tryPop_atomic_on_failure c10State 9).1 (Or.inl (by decide)),
   by decide,
   ((tryPush_tryPop_atomic_on_failure (RingQueue.init Nat 1) 0).2
     (Or.inl (by decide))).1,
   ((tryPush_tryPop_atomic_on_failure (RingQueue.init Nat 1) 0).2
     (Or.inl (by decide))).2⟩

/-- A stopped preemptive runtime over an empty capacity-1 container:
`Start` then `Stop` on a fresh `ThreadExecutor`. -/
def stoppedThreadExecutor : ThreadExecutor Nat :=
  (ThreadExecutor.Start { executor := ⟨RingQueue.init Nat 1⟩, running := false }).StopRt

/-- C6 (counterexample): submitting to a stopped runtime is NOT
rejected: `Submit` returns `true` and the task is enqueued (the
container's size goes from 0 to 1).  Neither `Submit` nor `Add`
consults the `_running` flag. -/
theorem stopped_submit_counterexample :
    stoppedThreadExecutor.running = false ∧
    stoppedThreadExecutor.executor.SizeApprox = 0 ∧
    (stoppedThreadExecutor.Submit 7).1 = true ∧
    (stoppedThreadExecutor.Submit 7).2.executor.SizeApprox = 1 := by
  decide

/-- C6 (amended): `ThreadExecutor::Submit` and
`CoroutineExecutor::Submit` forward unconditionally to
`LockFreeExecutor::Add` irrespective of the `_running` flag; a stopped
runtime accepts a submission exactly when a running one would (the
result is `false` only when the queue is full or contended, never
because the runtime is stopped). -/
theorem submit_ignores_running {τ : Type} [Inhabited τ]
    (e : LockFreeExecutor τ) (b₁ b₂ : Bool) (task : τ) :
    (ThreadExecutor.Submit ⟨e, b₁⟩ task).1 = (e.Add task).1 ∧
    (ThreadExecutor.Submit ⟨e, b₁⟩ task).2.executor = (e.Add task).2 ∧
    (ThreadExecutor.Submit ⟨e, b₁⟩ task).1
      = (ThreadExecutor.Submit ⟨e, b₂⟩ task).1 ∧
    (CoroutineExecutor.Submit ⟨e, b₁⟩ task).1 = (e.Add task).1 ∧
    (CoroutineExecutor.Submit ⟨e, b₁⟩ task).2.executor = (e.Add task).2 :=
  ⟨rfl, rfl, rfl, rfl, rfl⟩

/-- C7: the default backoff policy spins below 50 misses, yields from 50
up to (but excluding) 200, and sleeps exactly 50 microseconds from 200
on. -/
theorem default_backoff_tiers (m : Nat) :
    (m < 50 → DefaultBackoffPolicy m = BackoffAction.spin) ∧
    (50 ≤ m → m < 200 → DefaultBackoffPolicy m = BackoffAction.yield) ∧
    (200 ≤ m → DefaultBackoffPolicy m = BackoffAction.sleepMicros 50) := by
  refine ⟨?_, ?_, ?_⟩
  · intro h
    simp [DefaultBackoffPolicy, h]
  · intro h1 h2
    have hn : ¬ m < 50 := by omega
    simp [DefaultBackoffPolicy, hn, h2]
  · intro h
    have h1 : ¬ m < 50 := by omega
    have h2 : ¬ m < 200 := by omega
    simp [DefaultBackoffPolicy, h1, h2]

/-- Witness for `default_backoff_tiers` at miss counts 10, 100 and 500. -/
theorem default_backoff_tiers_witness :
    (10 < 50 ∧ DefaultBackoffPolicy 10 = BackoffAction.spin) ∧
    (50 ≤ 100 ∧ 100 < 200 ∧ DefaultBackoffPolicy 100 = BackoffAction.yield) ∧
    (200 ≤ 500 ∧ DefaultBackoffPolicy 500 = BackoffAction.sleepMicros 50) :=
  ⟨⟨by decide, (default_backoff_tiers 10).1 (by decide)⟩,
   ⟨by decide, by decide,
    (default_backoff_tiers 100).2.1 (by decide) (by decide)⟩,
   ⟨by decide, (default_backoff_tiers 500).2.2 (by decide)⟩⟩

/-- C8 (code bug, evaluated at the failing input): one scheduling round
of `ThreadMain` with one live coroutine, an empty queue and miss count
0.  No task is dequeued (the coroutine finds the queue empty and
suspends), yet the backoff policy is not invoked and the miss count is
reset to 0 rather than incremented: the source sets `progressed = true`
merely because a live coroutine handle was resumed, so with at least one
live coroutine the backoff machinery is dead code. -/
theorem threadMain_backoff_never_invoked :
    (threadMainRound (RingQueue.init Nat 4) 1 0).2.2.1 = 0 ∧
    (threadMainRound (RingQueue.init Nat 4) 1 0).2.2.2 = false ∧
    (threadMainRound (RingQueue.init Nat 4) 1 0).2.1 = 0 := by
  decide

/-- C9: the void adapter's `Wait` cannot return before the wrapped
computation has run, can return after it, and the computation has then
executed exactly once; the result adapter's `Get` blocks before the
computation runs and afterwards returns exactly the value the
computation produced, which was stored (under the adapter's lock, before
`_done` was set and the waiter signaled) by `operator()`. -/
theorem adapter_correctness {R : Type} [Inhabited R] (fn : Unit → R) :
    BlockingTask.mkTask.WaitReturns = false ∧
    BlockingTask.mkTask.run.WaitReturns = true ∧
    BlockingTask.mkTask.run.execCount = 1 ∧
    (ResultTask.mkTask R fn).GetReturns = none ∧
    (ResultTask.mkTask R fn).run.GetReturns = some (fn ()) ∧
    (ResultTask.mkTask R fn).run.execCount = 1 :=
  ⟨rfl, rfl, rfl, rfl, rfl, rfl⟩

/-- C1: Conservation.  For every history of `TryPush`/`TryPop` calls on
a fresh queue of any capacity, the values pushed with result `Ok` (in
order) are exactly the values delivered by `Ok` pops (in order) followed
by the values still held in the queue — so no pushed item is lost, none
is delivered twice, and a pop never invents a value; and once the queue
is drained (`head = tail`) the successful pops coincide with the
successful pushes, so their numbers are equal. -/
theorem ringQueue_conservation (C : Nat) (ops : List (RQOp Nat)) :
    (runOps (RingQueue.init Nat C) ops).2.1
      = (runOps (RingQueue.init Nat C) ops).2.2
        ++ (runOps (RingQueue.init Nat C) ops).1.toList ∧
    ((runOps (RingQueue.init Nat C) ops).1.head
        = (runOps (RingQueue.init Nat C) ops).1.tail →
      (runOps (RingQueue.init Nat C) ops).2.1
        = (runOps (RingQueue.init Nat C) ops).2.2) := by
  obtain ⟨hinv, hcons⟩ :=
    runOps_spec ops (RingQueue.init Nat C) (RingQueue.inv_init Nat C)
  rw [RingQueue.toList_init] at hcons
  simp only [List.nil_append] at hcons
  refine ⟨hcons, ?_⟩
  intro hq
  rw [hcons, RingQueue.toList_of_empty _ hq, List.append_nil]

/-- Witness for `ringQueue_conservation` at the history
`[push 3, push 4, pop, pop]` on a capacity-2 queue. -/
theorem ringQueue_conservation_witness :
    (runOps (RingQueue.init Nat 2)
        [RQOp.push 3, RQOp.push 4, RQOp.pop, RQOp.pop]).1.head
      = (runOps (RingQueue.init Nat 2)
          [RQOp.push 3, RQOp.push 4, RQOp.pop, RQOp.pop]).1.tail ∧
    (runOps (RingQueue.init Nat 2)
        [RQOp.push 3, RQOp.push 4, RQOp.pop, RQOp.pop]).2.1
      = (runOps (RingQueue.init Nat 2)
          [RQOp.push 3, RQOp.push 4, RQOp.pop, RQOp.pop]).2.2 :=
  ⟨by decide,
   (ringQueue_conservation 2 [RQOp.push 3, RQOp.push 4, RQOp.pop, RQOp.pop]).2
     (by decide)⟩

/-- C2: Capacity bound.  On a fresh queue of capacity `C > 0`, any `C`
consecutive pushes all return `Ok`; the next `TryPush` returns `Full`;
one `TryPop` then returns `Ok`, after which the next `TryPush` returns
`Ok` again. -/
theorem ringQueue_capacity_bound (C : Nat) (hC : 0 < C) (vs : List Nat)
    (hlen : vs.length = C) (w w₂ : Nat) :
    (pushSeq (RingQueue.init Nat C) vs).2
      = List.replicate C RingQueueResult.Ok ∧
    ((pushSeq (RingQueue.init Nat C) vs).1.TryPush w).1
      = RingQueueResult.Full ∧
    (pushSeq (RingQueue.init Nat C) vs).1.TryPop.1 = RingQueueResult.Ok ∧
    ((pushSeq (RingQueue.init Nat C) vs).1.TryPop.2.1.TryPush w₂).1
      = RingQueueResult.Ok := by
  have hinv0 := RingQueue.inv_init Nat C
  have hcap : (RingQueue.init Nat C).tail - (RingQueue.init Nat C).head
      + vs.length ≤ (RingQueue.init Nat C).nodes.length := by
    simp [RingQueue.init, hlen]
  obtain ⟨i1, i2, i3, i4, i5, i6⟩ :=
    pushSeq_ok vs (RingQueue.init Nat C) hinv0 hcap
  have hlen0 : (RingQueue.init Nat C).nodes.length = C := by
    simp [RingQueue.init]
  have hhead : (pushSeq (RingQueue.init Nat C) vs).1.head = 0 := i3
  have htail : (pushSeq (RingQueue.init Nat C) vs).1.tail = C := by
    rw [i4, hlen]
    simp [RingQueue.init]
  have hnlen : (pushSeq (RingQueue.init Nat C) vs).1.nodes.length = C := by
    rw [i5, hlen0]
  refine ⟨by rw [i1, hlen], ?_, ?_, ?_⟩
  · rw [RingQueue.push_full _ w (by omega)]
  · rw [RingQueue.pop_ok _ i2 (by omega)]
  · rw [RingQueue.pop_ok _ i2 (by omega)]
    have hinv2 := RingQueue.pop_inv _ i2 (by omega : (pushSeq (RingQueue.init Nat C) vs).1.head < (pushSeq (RingQueue.init Nat C) vs).1.tail)
    have hlt2 : (pushSeq (RingQueue.init Nat C) vs).1.popState.tail
        < (pushSeq (RingQueue.init Nat C) vs).1.popState.head
          + (pushSeq (RingQueue.init Nat C) vs).1.popState.nodes.length := by
      simp only [RingQueue.popState, List.length_set]
      omega
    rw [RingQueue.push_ok _ w₂ hinv2 hlt2]

/-- Witness for `ringQueue_capacity_bound` at capacity 2 with pushes of
5 and 6. -/
theorem ringQueue_capacity_bound_witness :
    0 < 2 ∧ ([5, 6] : List Nat).length = 2 ∧
    ((pushSeq (RingQueue.init Nat 2) [5, 6]).2
      = List.replicate 2 RingQueueResult.Ok ∧
    ((pushSeq (RingQueue.init Nat 2) [5, 6]).1.TryPush 9).1
      = RingQueueResult.Full ∧
    (pushSeq (RingQueue.init Nat 2) [5, 6]).1.TryPop.1 = RingQueueResult.Ok ∧
    ((pushSeq (RingQueue.init Nat 2) [5, 6]).1.TryPop.2.1.TryPush 11).1
      = RingQueueResult.Ok) :=
  ⟨by decide, by decide,
   ringQueue_capacity_bound 2 (by decide) [5, 6] (by decide) 9 11⟩

/-- C5: Single-producer ordering.  Pushing `v1..vn` (with `n` at most
the capacity, so that every push succeeds, as the first conjunct
proves) into a fresh queue and then popping `n` times delivers exactly
`v1..vn` in the same order. -/
theorem ringQueue_single_producer_ordering (C : Nat) (vs : List Nat)
    (hlen : vs.length ≤ C) :
    (pushSeq (RingQueue.init Nat C) vs).2
      = List.replicate vs.length RingQueueResult.Ok ∧
    (popSeq (pushSeq (RingQueue.init Nat C) vs).1 vs.length).2
      = vs.map some := by
  have hinv0 := RingQueue.inv_init Nat C
  have hcap : (RingQueue.init Nat C).tail - (RingQueue.init Nat C).head
      + vs.length ≤ (RingQueue.init Nat C).nodes.length := by
    simp [RingQueue.init, hlen]
  obtain ⟨i1, i2, i3, i4, i5, i6⟩ :=
    pushSeq_ok vs (RingQueue.init Nat C) hinv0 hcap
  refine ⟨i1, ?_⟩
  have hn : vs.length ≤ (pushSeq (RingQueue.init Nat C) vs).1.tail
      - (pushSeq (RingQueue.init Nat C) vs).1.head := by
    rw [i3, i4]
    simp [RingQueue.init]
  obtain ⟨p1, _, _, _, _⟩ :=
    popSeq_ok vs.length (pushSeq (RingQueue.init Nat C) vs).1 i2 hn
  rw [p1, i6, RingQueue.toList_init]
  simp

/-- Witness for `ringQueue_single_producer_ordering` at capacity 3 with
values `[1, 2, 3]`. -/
theorem ringQueue_single_producer_ordering_witness :
    ([1, 2, 3] : List Nat).length ≤ 3 ∧
    ((pushSeq (RingQueue.init Nat 3) [1, 2, 3]).2
      = List.replicate 3 RingQueueResult.Ok ∧
    (popSeq (pushSeq (RingQueue.init Nat 3) [1, 2, 3]).1 3).2
      = [some 1, some 2, some 3]) :=
  ⟨by decide, ringQueue_single_producer_ordering 3 [1, 2, 3] (by decide)⟩
